import Mathlib

/-!
Verification of the FormatTableForSlides core pipeline.

Shallow embedding of the TypeScript sources:
* `src/types.ts` (file `unnamed/part_001`): the `TableData`, `LayoutOptions`
  and `SeparatorType` types;
* `src/parser.ts`: `parseInput`, `detectDelimiter`, `parseLine`,
  `normalizeColumns`;
* `src/transformer.ts`: `splitColumns`, `mergeBlocks`, `transformLayout`;
* `src/formatter.ts`: `addRowNumbers`, `formatNumbers`, `formatNumberCell`;
* file `unnamed/part_000`: the earlier transformer without border support,
  embedded as `legacyMergeBlocks` / `legacyTransformLayout`.

Strings are processed as `List Char`; cell values are Lean `String`s built
with `String.mk`.  JavaScript numbers that are used as list indices are
modelled as `Nat` where they are always non-negative, and as `Int` where the
code can produce `-1` (the `borderBoundaries` entries, see
`mergeStep`).
-/

/-- `SeparatorType` from `types.ts`: `'none' | 'column' | 'border'`. -/
inductive SeparatorType where
  | none
  | column
  | border
deriving DecidableEq, Repr, Inhabited

/-- `TableData` from `types.ts`.  The two optional fields default to `none`,
which models a JavaScript object built without those keys (`undefined`). -/
structure TableData where
  headers : List String
  rows : List (List String)
  hasHeader : Bool
  separatorColumns : Option (List Int) := Option.none
  borderBoundaries : Option (List Int) := Option.none
deriving DecidableEq, Repr, Inhabited

/-- `LayoutOptions` from `types.ts`.  The split count is a non-negative
integer in the UI (1-10), modelled as `Nat`. -/
structure LayoutOptions where
  splitColumns : Nat
  separatorType : SeparatorType
deriving DecidableEq, Repr, Inhabited

/-- The whitespace class trimmed by JavaScript `String.prototype.trim`
(space, tab, line terminators, form feed, vertical tab, NBSP, BOM and the
Unicode line/paragraph separators; further exotic Unicode space separators
are not used by any input considered here). -/
def isJsWhitespace (c : Char) : Bool :=
  c == ' ' || c == '\t' || c == '\n' || c == '\r' || c == '\u000B' ||
    c == '\u000C' || c == '\u00A0' || c == '\uFEFF' || c == '\u2028' || c == '\u2029'

/-- JavaScript `s.trim()` on a character list: drop leading and trailing
whitespace. -/
def jsTrim (l : List Char) : List Char :=
  ((l.dropWhile isJsWhitespace).reverse.dropWhile isJsWhitespace).reverse

/-- Splitting on the newline character, as the first half of the JavaScript
`text.split(/\r?\n/)` in `parseInput` (`parser.ts` line 16). -/
def splitOnNl : List Char → List (List Char)
  | [] => [[]]
  | c :: rest =>
    if c = '\n' then [] :: splitOnNl rest
    else
      match splitOnNl rest with
      | [] => [[c]]
      | l :: ls => (c :: l) :: ls

/-- Dropping one carriage return before a split newline: together with
`splitOnNl` this is exactly `text.split(/\r?\n/)` (a lone `\r` is not a line
break for that regex, only `\n` and `\r\n` are). -/
def stripTrailingCr (l : List Char) : List Char :=
  if l.getLast? = some '\r' then l.dropLast else l

/-- `detectDelimiter` from `parser.ts` lines 48-52: tab wins ties. -/
def detectDelimiter (text : List Char) : Char :=
  let tabCount := text.count '\t'
  let commaCount := text.count ','
  if commaCount ≤ tabCount then '\t' else ','

/-- The quote-aware scanner loop of `parseLine` (`parser.ts` lines 57-91).
`current` is the field being assembled, the `Bool` is the `inQuotes` flag;
fields are trimmed as they are pushed, and the trailing field is always
pushed. -/
def parseLineGo (delim : Char) : List Char → Bool → List Char → List (List Char)
  | [], _, current => [jsTrim current]
  | '"' :: '"' :: rest, true, current => parseLineGo delim rest true (current ++ ['"'])
  | '"' :: rest, true, current => parseLineGo delim rest false current
  | c :: rest, true, current => parseLineGo delim rest true (current ++ [c])
  | c :: rest, false, current =>
    if c = '"' then parseLineGo delim rest true current
    else if c = delim then jsTrim current :: parseLineGo delim rest false []
    else parseLineGo delim rest false (current ++ [c])

/-- `parseLine` from `parser.ts`: scan the line and package the fields as
strings. -/
def parseLine (line : List Char) (delim : Char) : List String :=
  (parseLineGo delim line false []).map (fun f => String.mk f)

/-- The `allRows` computation of `parseInput` (`parser.ts` lines 16-21):
split the already-trimmed text into lines, parse each with the globally
detected delimiter, and drop rows with zero fields. -/
def parseRows (trimmed : List Char) : List (List String) :=
  let lines := (splitOnNl trimmed).map stripTrailingCr
  let delimiter := detectDelimiter trimmed
  (lines.map (fun line => parseLine line delimiter)).filter (fun row => decide (0 < row.length))

/-- `parseInput` from `parser.ts` lines 10-42. -/
def parseInput (text : String) (hasHeader : Bool) : TableData :=
  let trimmed := jsTrim text.toList
  if trimmed.isEmpty then { headers := [], rows := [], hasHeader := hasHeader }
  else
    match parseRows trimmed with
    | [] => { headers := [], rows := [], hasHeader := hasHeader }
    | first :: rest =>
      if hasHeader then
        { headers := first, rows := rest, hasHeader := true }
      else
        { headers := List.replicate (((first :: rest).map (fun r => r.length)).foldr max 0) "",
          rows := first :: rest,
          hasHeader := false }

/-- Right-padding a row with empty strings up to `n` cells, the
`while (length < n) push('')` loops of `normalizeColumns`. -/
def padRowTo (n : Nat) (l : List String) : List String :=
  l ++ List.replicate (n - l.length) ""

/-- `normalizeColumns` from `parser.ts` lines 96-120. -/
def normalizeColumns (data : TableData) : TableData :=
  let maxColumns := max data.headers.length ((data.rows.map (fun r => r.length)).foldr max 0)
  { headers := padRowTo maxColumns data.headers,
    rows := data.rows.map (padRowTo maxColumns),
    hasHeader := data.hasHeader }

/-- `splitColumns` from `transformer.ts` lines 11-50 (the identical function
also appears in the earlier transformer version, file `unnamed/part_000`
lines 11-50).  `Math.ceil(totalRows / columns)` is
`(totalRows + columns - 1) / columns` for positive `columns`. -/
def splitColumns (data : TableData) (columns : Nat) : List TableData :=
  if columns ≤ 1 ∨ data.rows.length = 0 then [data]
  else
    let totalRows := data.rows.length
    let rowsPerColumn := (totalRows + columns - 1) / columns
    (List.range columns).map (fun col =>
      let startIndex := col * rowsPerColumn
      let endIndex := min (startIndex + rowsPerColumn) totalRows
      if totalRows ≤ startIndex then
        { headers := data.headers,
          rows := List.replicate rowsPerColumn (List.replicate data.headers.length ""),
          hasHeader := data.hasHeader }
      else
        { headers := data.headers,
          rows := (data.rows.drop startIndex).take (endIndex - startIndex) ++
            List.replicate (rowsPerColumn - ((data.rows.drop startIndex).take (endIndex - startIndex)).length)
              (List.replicate data.headers.length ""),
          hasHeader := data.hasHeader })

/-- The mutable accumulator of the `blocks.forEach` loop in `mergeBlocks`
(`transformer.ts` lines 69-98).  Separator and border indices are kept as
`Int` because `mergedHeaders.length - 1` can be `-1` in JavaScript when the
preceding blocks have zero columns. -/
structure MergeState where
  mergedHeaders : List String
  mergedRows : List (List String)
  separatorColumns : List Int
  borderBoundaries : List Int
deriving DecidableEq, Repr

/-- One iteration of the `blocks.forEach` body in `mergeBlocks`
(`transformer.ts` lines 75-98).  `mergedRows` always holds exactly
`rowCount` rows in the actual control flow; the row update is written as a
map over `List.range rowCount` mirroring the `for (i in 0..rowCount)`
loops. -/
def mergeStep (options : LayoutOptions) (rowCount : Nat) (st : MergeState)
    (blockIndex : Nat) (block : TableData) : MergeState :=
  let st1 :=
    if 0 < blockIndex ∧ options.separatorType = SeparatorType.column then
      { mergedHeaders := st.mergedHeaders ++ [""],
        mergedRows := st.mergedRows.map (fun r => r ++ [""]),
        separatorColumns := st.separatorColumns ++ [(st.mergedHeaders.length : Int)],
        borderBoundaries := st.borderBoundaries }
    else st
  let st2 :=
    if 0 < blockIndex ∧ options.separatorType = SeparatorType.border then
      { st1 with borderBoundaries := st1.borderBoundaries ++ [(st1.mergedHeaders.length : Int) - 1] }
    else st1
  { mergedHeaders := st2.mergedHeaders ++ block.headers,
    mergedRows := (List.range rowCount).map (fun i =>
      st2.mergedRows.getD i [] ++ block.rows.getD i (List.replicate block.headers.length "")),
    separatorColumns := st2.separatorColumns,
    borderBoundaries := st2.borderBoundaries }

/-- The `blocks.forEach` loop of `mergeBlocks`, with the running block
index. -/
def mergeLoop (options : LayoutOptions) (rowCount : Nat) :
    Nat → List TableData → MergeState → MergeState
  | _, [], st => st
  | blockIndex, block :: rest, st =>
    mergeLoop options rowCount (blockIndex + 1) rest
      (mergeStep options rowCount st blockIndex block)

/-- The multi-block branch of `mergeBlocks` (`transformer.ts` lines 67-106):
run the loop from an empty state and package the result, turning empty
separator/border lists into an absent field. -/
def mergeMany (blocks : List TableData) (options : LayoutOptions) : TableData :=
  let rowCount := (blocks.map (fun b => b.rows.length)).foldr max 0
  let st := mergeLoop options rowCount 0 blocks
    { mergedHeaders := [], mergedRows := List.replicate rowCount [],
      separatorColumns := [], borderBoundaries := [] }
  { headers := st.mergedHeaders,
    rows := st.mergedRows,
    hasHeader := (blocks.headD default).hasHeader,
    separatorColumns := if 0 < st.separatorColumns.length then some st.separatorColumns else Option.none,
    borderBoundaries := if 0 < st.borderBoundaries.length then some st.borderBoundaries else Option.none }

/-- `mergeBlocks` from `transformer.ts` lines 55-107. -/
def mergeBlocks (blocks : List TableData) (options : LayoutOptions) : TableData :=
  match blocks with
  | [] => { headers := [], rows := [], hasHeader := false }
  | [b] => b
  | b0 :: b1 :: rest => mergeMany (b0 :: b1 :: rest) options

/-- `transformLayout` from `transformer.ts` lines 112-118. -/
def transformLayout (data : TableData) (options : LayoutOptions) : TableData :=
  mergeBlocks (splitColumns data options.splitColumns) options

/-- The mutable accumulator of the earlier `mergeBlocks` version
(file `unnamed/part_000` lines 68-71), which has no border bookkeeping. -/
structure LegacyMergeState where
  mergedHeaders : List String
  mergedRows : List (List String)
  separatorColumns : List Int
deriving DecidableEq, Repr

/-- One iteration of the `blocks.forEach` body of the earlier `mergeBlocks`
(file `unnamed/part_000` lines 73-91). -/
def legacyMergeStep (options : LayoutOptions) (rowCount : Nat) (st : LegacyMergeState)
    (blockIndex : Nat) (block : TableData) : LegacyMergeState :=
  let st1 :=
    if 0 < blockIndex ∧ options.separatorType = SeparatorType.column then
      { mergedHeaders := st.mergedHeaders ++ [""],
        mergedRows := st.mergedRows.map (fun r => r ++ [""]),
        separatorColumns := st.separatorColumns ++ [(st.mergedHeaders.length : Int)] }
    else st
  { mergedHeaders := st1.mergedHeaders ++ block.headers,
    mergedRows := (List.range rowCount).map (fun i =>
      st1.mergedRows.getD i [] ++ block.rows.getD i (List.replicate block.headers.length "")),
    separatorColumns := st1.separatorColumns }

/-- The `blocks.forEach` loop of the earlier `mergeBlocks`. -/
def legacyMergeLoop (options : LayoutOptions) (rowCount : Nat) :
    Nat → List TableData → LegacyMergeState → LegacyMergeState
  | _, [], st => st
  | blockIndex, block :: rest, st =>
    legacyMergeLoop options rowCount (blockIndex + 1) rest
      (legacyMergeStep options rowCount st blockIndex block)

/-- The multi-block branch of the earlier `mergeBlocks`
(file `unnamed/part_000` lines 67-98); the result object carries no
`borderBoundaries` key. -/
def legacyMergeMany (blocks : List TableData) (options : LayoutOptions) : TableData :=
  let rowCount := (blocks.map (fun b => b.rows.length)).foldr max 0
  let st := legacyMergeLoop options rowCount 0 blocks
    { mergedHeaders := [], mergedRows := List.replicate rowCount [], separatorColumns := [] }
  { headers := st.mergedHeaders,
    rows := st.mergedRows,
    hasHeader := (blocks.headD default).hasHeader,
    separatorColumns := if 0 < st.separatorColumns.length then some st.separatorColumns else Option.none }

/-- `mergeBlocks` from the earlier transformer version
(file `unnamed/part_000` lines 55-99). -/
def legacyMergeBlocks (blocks : List TableData) (options : LayoutOptions) : TableData :=
  match blocks with
  | [] => { headers := [], rows := [], hasHeader := false }
  | [b] => b
  | b0 :: b1 :: rest => legacyMergeMany (b0 :: b1 :: rest) options

/-- `transformLayout` from the earlier transformer version
(file `unnamed/part_000` lines 104-110); its `splitColumns` is textually
identical to the current one, so the shared embedding is used. -/
def legacyTransformLayout (data : TableData) (options : LayoutOptions) : TableData :=
  legacyMergeBlocks (splitColumns data options.splitColumns) options

/-- The counter-threading translation of the `rows.map` with the mutable
`currentNumber` in `addRowNumbers` (`formatter.ts` lines 13-21). -/
def numberRowsAux : Nat → List (List String) → List (List String)
  | _, [] => []
  | n, row :: rest =>
    if row.all (fun cell => cell == "") then ("" :: row) :: numberRowsAux n rest
    else (toString n :: row) :: numberRowsAux (n + 1) rest

/-- `addRowNumbers` from `formatter.ts` lines 10-28. -/
def addRowNumbers (data : TableData) : TableData :=
  { headers := "No." :: data.headers,
    rows := numberRowsAux 1 data.rows,
    hasHeader := data.hasHeader }

/-- The regular expression `^-?\d+(\.\d+)?$` of `formatNumberCell`
(`formatter.ts` line 53): optional minus sign, one or more digits, then
optionally a decimal point and one or more digits. -/
def matchesNumericPattern (l : List Char) : Bool :=
  let body := match l with
    | '-' :: rest => rest
    | _ => l
  let intPart := body.takeWhile Char.isDigit
  let after := body.dropWhile Char.isDigit
  !intPart.isEmpty &&
    (after.isEmpty ||
      (match after with
        | '.' :: frac => !frac.isEmpty && frac.all Char.isDigit
        | _ => false))

/-- Commas after every third character, used on the reversed digit list. -/
def group3Rev : List Char → List Char
  | [] => []
  | [a] => [a]
  | [a, b] => [a, b]
  | [a, b, c] => [a, b, c]
  | a :: b :: c :: d :: rest => a :: b :: c :: ',' :: group3Rev (d :: rest)

/-- Models `parseFloat(s).toLocaleString('ja-JP')` (`formatter.ts` lines
58-62) for a string `s` that matches the numeric pattern, whose value
round-trips exactly through a JavaScript double and has at most three
fraction digits (all inputs exercised here are of this form): leading zeros
and trailing fraction zeros disappear through `parseFloat`, the integer part
is grouped in threes with commas, and a non-empty canonical fraction is kept
after a decimal point. -/
def toLocaleStringJaJP (l : List Char) : String :=
  let neg := match l with
    | '-' :: _ => true
    | _ => false
  let body := if neg then l.tail else l
  let intPart := body.takeWhile Char.isDigit
  let fracPart := (body.dropWhile Char.isDigit).drop 1
  let intCanon := if (intPart.dropWhile (fun c => c == '0')).isEmpty then ['0']
    else intPart.dropWhile (fun c => c == '0')
  let fracCanon := (fracPart.reverse.dropWhile (fun c => c == '0')).reverse
  let grouped := (group3Rev intCanon.reverse).reverse
  String.mk ((if neg then ['-'] else []) ++ grouped ++
    (if fracCanon.isEmpty then [] else '.' :: fracCanon))

/-- `formatNumberCell` from `formatter.ts` lines 48-63.  For a string that
matches the anchored numeric pattern, `parseFloat` never yields `NaN`, so
the `isNaN` guard of the source is unreachable and is not modelled. -/
def formatNumberCell (value : String) : String :=
  let trimmed := jsTrim value.toList
  if trimmed.isEmpty then value
  else if !matchesNumericPattern trimmed then value
  else toLocaleStringJaJP trimmed

/-- `formatNumbers` from `formatter.ts` lines 33-43. -/
def formatNumbers (data : TableData) : TableData :=
  { headers := data.headers,
    rows := data.rows.map (fun row => row.map formatNumberCell),
    hasHeader := data.hasHeader }

/-! ### General list helper lemmas -/

lemma getD_map_lt {α β : Type} (f : α → β) (l : List α) (i : Nat) (d : β) (d0 : α)
    (h : i < l.length) : (l.map f).getD i d = f (l.getD i d0) := by
  rw [List.getD_eq_getElem _ _ (by simpa using h), List.getD_eq_getElem _ _ h,
    List.getElem_map]

lemma getD_range_map {α : Type} (g : Nat → α) (n i : Nat) (d : α) (h : i < n) :
    ((List.range n).map g).getD i d = g i := by
  rw [List.getD_eq_getElem _ _ (by simpa using h), List.getElem_map, List.getElem_range]

lemma range_map_getD_self {α : Type} (l : List α) (d : α) :
    (List.range l.length).map (fun i => l.getD i d) = l := by
  induction l with
  | nil => simp
  | cons a l ih =>
    simp only [List.length_cons, List.range_succ_eq_map, List.map_cons, List.getD_cons_zero,
      List.map_map]
    have hcomp : ((fun i => (a :: l).getD i d) ∘ Nat.succ) = fun i => l.getD i d := by
      funext i
      simp [Function.comp, List.getD_cons_succ]
    rw [hcomp, ih]

lemma foldrMax_bound (xs : List Nat) : ∀ x ∈ xs, x ≤ xs.foldr max 0 := by
  induction xs with
  | nil => simp
  | cons a xs ih =>
    intro x hx
    rcases List.mem_cons.mp hx with h | h
    · subst h
      exact le_max_left _ _
    · exact le_trans (ih x h) (le_max_right _ _)

lemma take_min_self {α : Type} (l : List α) (k : Nat) : l.take (min k l.length) = l.take k := by
  rcases le_total k l.length with h | h
  · rw [Nat.min_eq_left h]
  · rw [Nat.min_eq_right h, List.take_length, List.take_of_length_le h]

lemma getD_replicate_self {α : Type} (a : α) (n i : Nat) :
    (List.replicate n a).getD i a = a := by
  rcases Nat.lt_or_ge i n with h | h
  · rw [List.getD_eq_getElem _ _ (by simpa using h), List.getElem_replicate]
  · exact List.getD_eq_default _ _ (by simpa using h)

/-! ### C1: end-to-end pipeline on a concrete input -/

/-- C1.  For the tab-delimited input `"a\tb\n1\t2\n3\t4"` with
`hasHeader = true`, parsing followed by `transformLayout` with
`splitColumns = 2` and `separatorType = "column"` yields headers
`["a","b","","a","b"]`, exactly one data row `["1","2","","3","4"]`, and
`separatorColumns` holding exactly the index `2` of the single inserted
separator column. -/
theorem pipeline_end_to_end_concrete :
    transformLayout (parseInput "a\tb\n1\t2\n3\t4" true)
        { splitColumns := 2, separatorType := SeparatorType.column } =
      { headers := ["a", "b", "", "a", "b"],
        rows := [["1", "2", "", "3", "4"]],
        hasHeader := true,
        separatorColumns := some [2],
        borderBoundaries := Option.none } := by
  decide

/-! ### C6: quote handling in the line parser -/

/-- C6.  With comma as delimiter, a quoted field keeps the delimiter as
literal text (`"a,b"` parses to the single field `a,b`), and a doubled
double-quote inside quotes unescapes to one literal quote (`"a""b"` parses
to the single field `a"b`); the enclosing quotes are not part of the
field. -/
theorem parseLine_quote_handling :
    parseLine "\"a,b\"".toList ',' = ["a,b"] ∧
      parseLine "\"a\"\"b\"".toList ',' = ["a\"b"] := by
  constructor
  · decide
  · decide

/-! ### C5: parse then normalize yields uniform row lengths -/

/-- The `maxColumns` computed by `normalizeColumns` (`parser.ts` lines
97-100). -/
def tableMaxColumns (data : TableData) : Nat :=
  max data.headers.length ((data.rows.map (fun r => r.length)).foldr max 0)

lemma normalizeColumns_uniform (data : TableData) :
    ∀ row ∈ (normalizeColumns data).rows,
      row.length = (normalizeColumns data).headers.length := by
  intro row hrow
  simp only [normalizeColumns, List.mem_map] at hrow
  obtain ⟨r, hr, rfl⟩ := hrow
  have h1 : r.length ≤ (data.rows.map (fun r => r.length)).foldr max 0 :=
    foldrMax_bound _ _ (List.mem_map_of_mem _ hr)
  have h2 : data.headers.length ≤
      max data.headers.length ((data.rows.map (fun r => r.length)).foldr max 0) :=
    le_max_left _ _
  have h3 : r.length ≤
      max data.headers.length ((data.rows.map (fun r => r.length)).foldr max 0) :=
    le_trans h1 (le_max_right _ _)
  simp only [normalizeColumns, padRowTo, List.length_append, List.length_replicate]
  omega

/-- C5.  After `parseInput` followed by `normalizeColumns`, every row has
exactly as many cells as the header row; moreover the normalizer right-pads
the header row and every data row with empty strings up to the maximum
column count, never truncating (the original cells stay as a prefix). -/
theorem parse_then_normalize_uniform (text : String) (hasHeader : Bool) :
    (∀ row ∈ (normalizeColumns (parseInput text hasHeader)).rows,
        row.length = (normalizeColumns (parseInput text hasHeader)).headers.length) ∧
    (normalizeColumns (parseInput text hasHeader)).headers =
      (parseInput text hasHeader).headers ++
        List.replicate (tableMaxColumns (parseInput text hasHeader) -
          (parseInput text hasHeader).headers.length) "" ∧
    (normalizeColumns (parseInput text hasHeader)).rows =
      (parseInput text hasHeader).rows.map (fun r =>
        r ++ List.replicate (tableMaxColumns (parseInput text hasHeader) - r.length) "") :=
  ⟨normalizeColumns_uniform _, rfl, rfl⟩

/-- Witness for C5 at the concrete input `"a,b\nc"` without header: the
padded second row `["c",""]` has the header length. -/
theorem parse_then_normalize_uniform_witness :
    (["c", ""] : List String).length =
      (normalizeColumns (parseInput "a,b\nc" false)).headers.length :=
  (parse_then_normalize_uniform "a,b\nc" false).1 ["c", ""] (by decide)

/-! ### C7: row numbering skips fully blank rows -/

lemma numberRowsAux_length (rows : List (List String)) :
    ∀ n : Nat, (numberRowsAux n rows).length = rows.length := by
  induction rows with
  | nil => intro n; simp [numberRowsAux]
  | cons row rest ih =>
    intro n
    by_cases hrow : row.all (fun cell => cell == "") = true
    · simp [numberRowsAux, hrow, ih]
    · simp [numberRowsAux, hrow, ih]

lemma numberRowsAux_getD (rows : List (List String)) :
    ∀ (n i : Nat), i < rows.length →
      (numberRowsAux n rows).getD i [] =
        (if (rows.getD i []).all (fun cell => cell == "") then ""
         else toString (n + ((rows.take i).filter
             (fun r => !(r.all (fun cell => cell == "")))).length)) :: rows.getD i [] := by
  induction rows with
  | nil => intro n i h; simp at h
  | cons row rest ih =>
    intro n i h
    by_cases hrow : row.all (fun cell => cell == "") = true
    · cases i with
      | zero => simp [numberRowsAux, hrow]
      | succ i =>
        have h2 : i < rest.length := by simpa using h
        have heq : numberRowsAux n (row :: rest) = ("" :: row) :: numberRowsAux n rest := by
          simp [numberRowsAux, hrow]
        have hcond : ¬((!(row.all (fun cell => cell == ""))) = true) := by
          rw [hrow]
          decide
        rw [heq, List.getD_cons_succ, ih n i h2, List.getD_cons_succ, List.take_succ_cons,
          List.filter_cons, if_neg hcond]
    · cases i with
      | zero => simp [numberRowsAux, hrow]
      | succ i =>
        have h2 : i < rest.length := by simpa using h
        have hra : row.all (fun cell => cell == "") = false := by
          simpa using hrow
        have heq : numberRowsAux n (row :: rest) =
            (toString n :: row) :: numberRowsAux (n + 1) rest := by
          simp [numberRowsAux, hra]
        have hcond : (!(row.all (fun cell => cell == ""))) = true := by
          rw [hra]
          decide
        rw [heq, List.getD_cons_succ, ih (n + 1) i h2, List.getD_cons_succ,
          List.take_succ_cons, List.filter_cons, if_pos hcond, List.length_cons]
        by_cases hblank : (rest.getD i []).all (fun cell => cell == "") = true
        · rw [if_pos hblank, if_pos hblank]
        · rw [if_neg hblank, if_neg hblank]
          congr 2
          omega

/-- C7.  `addRowNumbers` prepends the `"No."` header; each data row gets the
next sequential integer (as a string, starting at 1) when it has at least one
non-empty cell, and an empty numbering cell — without consuming a sequence
number — when every cell is empty.  The numbering cell of row `i` is
therefore determined by the count of non-blank rows before `i`.  In
particular the rows `[["a"],[""],["b"]]` receive the cells `"1"`, `""`,
`"2"`. -/
theorem addRowNumbers_numbering (data : TableData) :
    (addRowNumbers data).headers = "No." :: data.headers ∧
    (addRowNumbers data).rows.length = data.rows.length ∧
    (∀ i, i < data.rows.length →
      (addRowNumbers data).rows.getD i [] =
        (if (data.rows.getD i []).all (fun cell => cell == "") then ""
         else toString (1 + ((data.rows.take i).filter
             (fun r => !(r.all (fun cell => cell == "")))).length)) :: data.rows.getD i []) ∧
    (addRowNumbers { headers := ["h"], rows := [["a"], [""], ["b"]], hasHeader := true }).rows =
      [["1", "a"], ["", ""], ["2", "b"]] :=
  ⟨rfl, numberRowsAux_length data.rows 1,
    fun i hi => numberRowsAux_getD data.rows 1 i hi, by decide⟩

/-- Witness for C7: the third row of the numbered example table, obtained
through the general numbering law. -/
theorem addRowNumbers_numbering_witness :
    (addRowNumbers { headers := ["h"], rows := [["a"], [""], ["b"]], hasHeader := true }).rows.getD 2 [] =
      ["2", "b"] := by
  have h := (addRowNumbers_numbering
    { headers := ["h"], rows := [["a"], [""], ["b"]], hasHeader := true }).2.2.1 2 (by decide)
  rw [h]
  decide

/-! ### C9: the line parser always yields a field, so no line is dropped -/

lemma parseLineGo_ne_nil (delim : Char) (cs : List Char) (inQ : Bool) (cur : List Char) :
    parseLineGo delim cs inQ cur ≠ [] := by
  induction cs, inQ, cur using parseLineGo.induct delim with
  | case1 inQ cur => simp [parseLineGo]
  | case2 rest cur ih => simpa [parseLineGo] using ih
  | case3 rest cur hne ih =>
    rw [show parseLineGo delim ('"' :: rest) true cur = parseLineGo delim rest false cur by
      cases rest with
      | nil => rfl
      | cons c rest2 =>
        by_cases hc : c = '"'
        · exact absurd hc (fun hcc => hne rest2 (by rw [hcc]))
        · simp [parseLineGo, hc]]
    exact ih
  | case4 c rest cur hne hq ih =>
    rw [show parseLineGo delim (c :: rest) true cur = parseLineGo delim rest true (cur ++ [c]) by
      simp [parseLineGo, hq]]
    exact ih
  | case5 rest cur ih => simpa [parseLineGo] using ih
  | case6 rest cur hdq ih =>
    rw [show parseLineGo delim (delim :: rest) false cur =
        jsTrim cur :: parseLineGo delim rest false [] by
      simp [parseLineGo, hdq]]
    simp
  | case7 c rest cur hq hd ih =>
    rw [show parseLineGo delim (c :: rest) false cur = parseLineGo delim rest false (cur ++ [c]) by
      simp [parseLineGo, hq, hd]]
    exact ih

lemma splitOnNl_ne_nil (l : List Char) : splitOnNl l ≠ [] := by
  cases l with
  | nil => simp [splitOnNl]
  | cons c rest =>
    by_cases h : c = '\n'
    · simp [splitOnNl, h]
    · rcases hs : splitOnNl rest with _ | ⟨x, xs⟩ <;> simp [splitOnNl, h, hs]

lemma parseRows_ne_nil (trimmed : List Char) : parseRows trimmed ≠ [] := by
  unfold parseRows
  have h2 : ∀ row ∈ ((splitOnNl trimmed).map stripTrailingCr).map
      (fun line => parseLine line (detectDelimiter trimmed)),
      (fun row : List String => decide (0 < row.length)) row = true := by
    intro row hrow
    simp only [List.mem_map] at hrow
    obtain ⟨line, _, rfl⟩ := hrow
    have hne := parseLineGo_ne_nil (detectDelimiter trimmed) line false []
    simp [parseLine, List.length_pos, hne]
  rw [List.filter_eq_self.mpr h2]
  simp [List.map_eq_nil_iff, splitOnNl_ne_nil]

/-- C9.  The line scanner always pushes its trailing field, so every line
parses to at least one field and no line is ever dropped: `parseRows` is
never empty (so the all-lines-dropped fallback of `parseInput` is
unreachable), `parseInput` on text with non-empty trim never returns the
empty table (its headers list is non-empty), and an interior blank line
survives as a row holding a single empty field. -/
theorem parser_never_drops_lines :
    (∀ (line : List Char) (delim : Char), 1 ≤ (parseLine line delim).length) ∧
    (∀ trimmed : List Char, parseRows trimmed ≠ []) ∧
    (∀ (text : String) (hasHeader : Bool), jsTrim text.toList ≠ [] →
        (parseInput text hasHeader).headers ≠ []) ∧
    (parseInput "a\n\nb" false).rows = [["a"], [""], ["b"]] := by
  have hline : ∀ (line : List Char) (delim : Char), 1 ≤ (parseLine line delim).length := by
    intro line delim
    have hne := parseLineGo_ne_nil delim line false []
    simp [parseLine, Nat.succ_le_iff, List.length_pos, hne]
  refine ⟨hline, parseRows_ne_nil, ?_, by decide⟩
  intro text hasHeader htrim
  unfold parseInput
  rw [if_neg (by simpa [List.isEmpty_iff] using htrim)]
  rcases hrows : parseRows (jsTrim text.toList) with _ | ⟨first, rest⟩
  · exact absurd hrows (parseRows_ne_nil _)
  · have hfirst : first ∈ parseRows (jsTrim text.toList) := by
      rw [hrows]
      exact List.mem_cons_self _ _
    have hlen : 0 < first.length := by
      unfold parseRows at hfirst
      have := List.of_mem_filter hfirst
      simpa using this
    by_cases hh : hasHeader
    · simpa [hh, ← List.length_pos] using hlen
    · have hmax : first.length ≤ (((first :: rest).map (fun r => r.length)).foldr max 0) :=
        foldrMax_bound _ _ (by simp)
      simp only [hh, if_false, Bool.false_eq_true, ne_eq, List.replicate_eq_nil_iff]
      omega

/-- Witness for C9 at the concrete input `"x"` with a header: the parsed
headers are non-empty. -/
theorem parser_never_drops_lines_witness : (parseInput "x" true).headers ≠ [] :=
  parser_never_drops_lines.2.2.1 "x" true (by decide)

/-! ### C8: numeric cells get thousands grouping, others pass through -/

/-- C8.  `formatNumbers` keeps the headers untouched and maps
`formatNumberCell` over every data cell; a cell is re-rendered with the
locale-style grouping exactly when its trimmed value matches the pattern
"optional minus sign, digits, optional decimal point plus digits", and any
other cell (the empty one included) passes through unchanged.  In
particular `"1234567"` becomes `"1,234,567"`, `"12.5"` stays `"12.5"` with
its decimal part preserved, and `"abc"` is unchanged. -/
theorem formatNumbers_grouping :
    (∀ data : TableData, (formatNumbers data).headers = data.headers ∧
        (formatNumbers data).rows = data.rows.map (fun row => row.map formatNumberCell)) ∧
    (∀ v : String, matchesNumericPattern (jsTrim v.toList) = false → formatNumberCell v = v) ∧
    (∀ v : String, matchesNumericPattern (jsTrim v.toList) = true →
        formatNumberCell v = toLocaleStringJaJP (jsTrim v.toList)) ∧
    formatNumberCell "1234567" = "1,234,567" ∧
    formatNumberCell "12.5" = "12.5" ∧
    formatNumberCell "abc" = "abc" := by
  refine ⟨fun data => ⟨rfl, rfl⟩, ?_, ?_, by decide, by decide, by decide⟩
  · intro v hv
    simp only [formatNumberCell]
    rcases he : (jsTrim v.toList).isEmpty with _ | _
    · rw [if_neg (by simp [he]), if_pos (by rw [hv]; decide)]
    · rw [if_pos (by simp [he])]
  · intro v hv
    simp only [formatNumberCell]
    have hne : jsTrim v.toList ≠ [] := by
      intro h
      rw [h] at hv
      exact absurd hv (by decide)
    rw [if_neg (by simpa [List.isEmpty_iff] using hne), if_neg (by rw [hv]; decide)]

/-- Witness for C8: a non-matching cell passes through, a matching one is
re-rendered. -/
theorem formatNumbers_grouping_witness :
    formatNumberCell "abc" = "abc" ∧
      formatNumberCell "7" = toLocaleStringJaJP (jsTrim "7".toList) :=
  ⟨formatNumbers_grouping.2.1 "abc" (by decide),
    formatNumbers_grouping.2.2.1 "7" (by decide)⟩

/-! ### C2: splitColumns block shape and row preservation -/

/-- Uniform closed form of one block's rows in `splitColumns`: the `rpc`-row
window starting at `s`, padded to `rpc` rows with blank rows of width `w`.
Both branches of the source (`startIndex >= totalRows` and the sliced one)
are instances of this form. -/
def blockRowsF (L : List (List String)) (w rpc s : Nat) : List (List String) :=
  (L.drop s).take rpc ++
    List.replicate (rpc - ((L.drop s).take rpc).length) (List.replicate w "")

lemma blockRowsF_length (L : List (List String)) (w rpc s : Nat) :
    (blockRowsF L w rpc s).length = rpc := by
  unfold blockRowsF
  rw [List.length_append, List.length_replicate, List.length_take]
  omega

lemma min_window (s rpc total : Nat) : min (s + rpc) total - s = min rpc (total - s) := by
  omega

lemma blockRowsF_drop (L : List (List String)) (w rpc s : Nat) :
    blockRowsF L w rpc (s + rpc) = blockRowsF (L.drop rpc) w rpc s := by
  unfold blockRowsF
  rw [List.drop_drop, Nat.add_comm rpc s]

lemma splitColumns_eq_map (data : TableData) (n : Nat) (hn : 1 < n) (hr : data.rows ≠ []) :
    splitColumns data n = (List.range n).map (fun col =>
      { headers := data.headers,
        rows := blockRowsF data.rows data.headers.length
          ((data.rows.length + n - 1) / n) (col * ((data.rows.length + n - 1) / n)),
        hasHeader := data.hasHeader }) := by
  have hguard : ¬(n ≤ 1 ∨ data.rows.length = 0) := by
    push_neg
    exact ⟨by omega, by simpa [List.length_eq_zero] using hr⟩
  unfold splitColumns
  rw [if_neg hguard]
  refine List.map_congr_left ?_
  intro col _
  by_cases hs : data.rows.length ≤ col * ((data.rows.length + n - 1) / n)
  · rw [if_pos hs]
    have hdrop : data.rows.drop (col * ((data.rows.length + n - 1) / n)) = [] :=
      List.drop_eq_nil_of_le hs
    simp [blockRowsF, hdrop]
  · rw [if_neg hs]
    have h1 : min (col * ((data.rows.length + n - 1) / n) + (data.rows.length + n - 1) / n)
          data.rows.length - col * ((data.rows.length + n - 1) / n) =
        min ((data.rows.length + n - 1) / n)
          ((data.rows.drop (col * ((data.rows.length + n - 1) / n))).length) := by
      rw [List.length_drop]
      exact min_window _ _ _
    simp only [blockRowsF, h1, take_min_self]

lemma ceilDiv_mul_ge (total n : Nat) (hn : 0 < n) : total ≤ n * ((total + n - 1) / n) := by
  obtain ⟨q, hq⟩ : ∃ q, (total + n - 1) / n = q := ⟨_, rfl⟩
  have h1 := Nat.div_add_mod (total + n - 1) n
  have h2 : (total + n - 1) % n < n := Nat.mod_lt _ hn
  rw [hq] at h1
  rw [hq]
  generalize (total + n - 1) % n = r at h1 h2
  generalize n * q = m at h1 ⊢
  omega

lemma join_blockRowsF (w rpc : Nat) : ∀ (n : Nat) (L : List (List String)),
    ((List.range n).map (fun col => blockRowsF L w rpc (col * rpc))).flatten =
      L.take (n * rpc) ++
        List.replicate (n * rpc - min (n * rpc) L.length) (List.replicate w "") := by
  intro n
  induction n with
  | zero => intro L; simp
  | succ n ih =>
    intro L
    rw [List.range_succ_eq_map, List.map_cons, List.map_map, List.flatten_cons]
    have hmap : ((fun col => blockRowsF L w rpc (col * rpc)) ∘ Nat.succ) =
        fun col => blockRowsF (L.drop rpc) w rpc (col * rpc) := by
      funext col
      simp only [Function.comp, Nat.succ_mul]
      exact blockRowsF_drop L w rpc (col * rpc)
    rw [hmap, ih]
    simp only [blockRowsF, Nat.zero_mul, List.drop_zero, List.length_take, List.length_drop,
      Nat.succ_mul]
    rcases Nat.le_total rpc L.length with hle | hle
    · have hmin : min rpc L.length = rpc := Nat.min_eq_left hle
      rw [hmin, Nat.sub_self, List.replicate_zero, List.append_nil,
        Nat.add_comm (n * rpc) rpc, List.take_add]
      have hc : n * rpc - min (n * rpc) (L.length - rpc) =
          rpc + n * rpc - min (rpc + n * rpc) L.length := by
        generalize n * rpc = A
        omega
      rw [hc, List.append_assoc]
    · have hmin : min rpc L.length = L.length := Nat.min_eq_right hle
      have hdrop : L.drop rpc = [] := List.drop_eq_nil_of_le hle
      have hle2 : L.length ≤ n * rpc + rpc := le_trans hle (Nat.le_add_left rpc (n * rpc))
      rw [hmin, hdrop, List.take_nil, List.take_of_length_le hle, List.nil_append,
        List.take_of_length_le hle2]
      have hz : L.length - rpc = 0 := by omega
      rw [hz, List.append_assoc, ← List.replicate_add]
      have hc : rpc - L.length + (n * rpc - min (n * rpc) 0) =
          n * rpc + rpc - min (n * rpc + rpc) L.length := by
        generalize n * rpc = A
        omega
      rw [hc]

/-- C2.  For `n > 1` and a table with at least one row, `splitColumns`
produces exactly `n` blocks; every block has exactly
`ceil(totalRows / n)` rows and carries the original headers and
`hasHeader` flag unchanged; the concatenation of the blocks' rows in block
order is the original rows followed only by all-blank padding rows, so
truncating it to the original row count reproduces the original rows in
order. -/
theorem splitColumns_blocks (data : TableData) (n : Nat) (hn : 1 < n) (hr : data.rows ≠ []) :
    (splitColumns data n).length = n ∧
    (∀ b ∈ splitColumns data n,
        b.rows.length = (data.rows.length + n - 1) / n ∧
        b.headers = data.headers ∧ b.hasHeader = data.hasHeader) ∧
    ((splitColumns data n).map TableData.rows).flatten =
      data.rows ++ List.replicate (n * ((data.rows.length + n - 1) / n) - data.rows.length)
        (List.replicate data.headers.length "") ∧
    (((splitColumns data n).map TableData.rows).flatten).take data.rows.length = data.rows := by
  have hflat : ((splitColumns data n).map TableData.rows).flatten =
      data.rows ++ List.replicate (n * ((data.rows.length + n - 1) / n) - data.rows.length)
        (List.replicate data.headers.length "") := by
    rw [splitColumns_eq_map data n hn hr, List.map_map]
    have hge : data.rows.length ≤ n * ((data.rows.length + n - 1) / n) :=
      ceilDiv_mul_ge data.rows.length n (by omega)
    have := join_blockRowsF data.headers.length ((data.rows.length + n - 1) / n) n data.rows
    rw [show (TableData.rows ∘ fun col =>
        ({ headers := data.headers,
           rows := blockRowsF data.rows data.headers.length
             ((data.rows.length + n - 1) / n) (col * ((data.rows.length + n - 1) / n)),
           hasHeader := data.hasHeader } : TableData)) =
        fun col => blockRowsF data.rows data.headers.length
          ((data.rows.length + n - 1) / n) (col * ((data.rows.length + n - 1) / n)) from rfl,
      this, Nat.min_eq_right hge, List.take_of_length_le hge]
  refine ⟨?_, ?_, hflat, ?_⟩
  · rw [splitColumns_eq_map data n hn hr]
    simp
  · intro b hb
    rw [splitColumns_eq_map data n hn hr] at hb
    simp only [List.mem_map, List.mem_range] at hb
    obtain ⟨col, _, rfl⟩ := hb
    exact ⟨blockRowsF_length _ _ _ _, rfl, rfl⟩
  · rw [hflat]
    exact List.take_left _ _

/-- Witness for C2 on a concrete 3-row table split in two. -/
theorem splitColumns_blocks_witness :
    (splitColumns
        { headers := ["h1", "h2"], rows := [["1", "2"], ["3", "4"], ["5", "6"]],
          hasHeader := true } 2).length = 2 ∧
    (((splitColumns
        { headers := ["h1", "h2"], rows := [["1", "2"], ["3", "4"], ["5", "6"]],
          hasHeader := true } 2).map TableData.rows).flatten).take 3 =
      [["1", "2"], ["3", "4"], ["5", "6"]] := by
  have h := splitColumns_blocks
    { headers := ["h1", "h2"], rows := [["1", "2"], ["3", "4"], ["5", "6"]], hasHeader := true }
    2 (by decide) (by decide)
  exact ⟨h.1, h.2.2.2⟩

/-! ### Closed forms for the merge loop (used by C3, C4, C10) -/

/-- The separator indices recorded by the column-mode merge of a list of
follow-up blocks, starting from a merged width `base`. -/
def sepIndices : Nat → List TableData → List Int
  | _, [] => []
  | base, b :: bs => (base : Int) :: sepIndices (base + 1 + b.headers.length) bs

/-- The boundary indices recorded by the border-mode merge of a list of
follow-up blocks, starting from a merged width `base`. -/
def borderIndices : Nat → List TableData → List Int
  | _, [] => []
  | base, b :: bs => ((base : Int) - 1) :: borderIndices (base + b.headers.length) bs

lemma mergeStep_zero (options : LayoutOptions) (rowCount : Nat) (st : MergeState)
    (b : TableData) :
    mergeStep options rowCount st 0 b =
      { mergedHeaders := st.mergedHeaders ++ b.headers,
        mergedRows := (List.range rowCount).map (fun i =>
          st.mergedRows.getD i [] ++ b.rows.getD i (List.replicate b.headers.length "")),
        separatorColumns := st.separatorColumns,
        borderBoundaries := st.borderBoundaries } := by
  simp only [mergeStep]
  rw [if_neg (by simp), if_neg (by simp)]

lemma mergeStep_column (options : LayoutOptions) (rowCount : Nat) (st : MergeState)
    (j : Nat) (hj : 1 ≤ j) (b : TableData)
    (hmode : options.separatorType = SeparatorType.column) :
    mergeStep options rowCount st j b =
      { mergedHeaders := (st.mergedHeaders ++ [""]) ++ b.headers,
        mergedRows := (List.range rowCount).map (fun i =>
          (st.mergedRows.map (fun r => r ++ [""])).getD i [] ++
            b.rows.getD i (List.replicate b.headers.length "")),
        separatorColumns := st.separatorColumns ++ [(st.mergedHeaders.length : Int)],
        borderBoundaries := st.borderBoundaries } := by
  simp only [mergeStep]
  rw [hmode]
  rw [if_neg (by simp), if_pos (show 0 < j ∧ SeparatorType.column = SeparatorType.column from
    ⟨by omega, rfl⟩)]

lemma mergeStep_border (options : LayoutOptions) (rowCount : Nat) (st : MergeState)
    (j : Nat) (hj : 1 ≤ j) (b : TableData)
    (hmode : options.separatorType = SeparatorType.border) :
    mergeStep options rowCount st j b =
      { mergedHeaders := st.mergedHeaders ++ b.headers,
        mergedRows := (List.range rowCount).map (fun i =>
          st.mergedRows.getD i [] ++ b.rows.getD i (List.replicate b.headers.length "")),
        separatorColumns := st.separatorColumns,
        borderBoundaries := st.borderBoundaries ++ [(st.mergedHeaders.length : Int) - 1] } := by
  simp only [mergeStep]
  rw [hmode]
  rw [if_pos (show 0 < j ∧ SeparatorType.border = SeparatorType.border from ⟨by omega, rfl⟩),
    if_neg (by simp)]

lemma mergeLoop_column (options : LayoutOptions) (rowCount : Nat)
    (hmode : options.separatorType = SeparatorType.column) :
    ∀ (bs : List TableData) (j : Nat) (st : MergeState), 1 ≤ j →
      st.mergedRows.length = rowCount →
      mergeLoop options rowCount j bs st =
        { mergedHeaders := st.mergedHeaders ++ (bs.map (fun b => "" :: b.headers)).flatten,
          mergedRows := (List.range rowCount).map (fun i =>
            st.mergedRows.getD i [] ++
              (bs.map (fun b =>
                "" :: b.rows.getD i (List.replicate b.headers.length ""))).flatten),
          separatorColumns := st.separatorColumns ++ sepIndices st.mergedHeaders.length bs,
          borderBoundaries := st.borderBoundaries } := by
  intro bs
  induction bs with
  | nil =>
    intro j st hj hlen
    show st = _
    cases st with
    | mk mh mr sc bb =>
      have hlen2 : mr.length = rowCount := hlen
      simp only [sepIndices, List.map_nil, List.flatten_nil, List.append_nil]
      rw [show (List.range rowCount).map (fun i => mr.getD i []) = mr from by
        rw [← hlen2]
        exact range_map_getD_self mr []]
  | cons b bs ih =>
    intro j st hj hlen
    show mergeLoop options rowCount (j + 1) bs (mergeStep options rowCount st j b) = _
    rw [mergeStep_column options rowCount st j hj b hmode]
    rw [ih (j + 1) _ (by omega) (by simp)]
    rw [MergeState.mk.injEq]
    refine ⟨?_, ?_, ?_, rfl⟩
    · simp [List.append_assoc]
    · refine List.map_congr_left ?_
      intro i hi
      have hi2 : i < rowCount := List.mem_range.mp hi
      rw [getD_range_map _ _ _ _ hi2]
      rw [getD_map_lt (fun r => r ++ [""]) st.mergedRows i [] [] (by omega)]
      simp [List.append_assoc]
    · simp only [List.length_append, List.length_cons, List.length_nil, sepIndices]
      rw [List.append_assoc]
      congr 1

lemma mergeLoop_border (options : LayoutOptions) (rowCount : Nat)
    (hmode : options.separatorType = SeparatorType.border) :
    ∀ (bs : List TableData) (j : Nat) (st : MergeState), 1 ≤ j →
      st.mergedRows.length = rowCount →
      mergeLoop options rowCount j bs st =
        { mergedHeaders := st.mergedHeaders ++ (bs.map TableData.headers).flatten,
          mergedRows := (List.range rowCount).map (fun i =>
            st.mergedRows.getD i [] ++
              (bs.map (fun b =>
                b.rows.getD i (List.replicate b.headers.length ""))).flatten),
          separatorColumns := st.separatorColumns,
          borderBoundaries := st.borderBoundaries ++ borderIndices st.mergedHeaders.length bs } := by
  intro bs
  induction bs with
  | nil =>
    intro j st hj hlen
    show st = _
    cases st with
    | mk mh mr sc bb =>
      have hlen2 : mr.length = rowCount := hlen
      simp only [borderIndices, List.map_nil, List.flatten_nil, List.append_nil]
      rw [show (List.range rowCount).map (fun i => mr.getD i []) = mr from by
        rw [← hlen2]
        exact range_map_getD_self mr []]
  | cons b bs ih =>
    intro j st hj hlen
    show mergeLoop options rowCount (j + 1) bs (mergeStep options rowCount st j b) = _
    rw [mergeStep_border options rowCount st j hj b hmode]
    rw [ih (j + 1) _ (by omega) (by simp)]
    rw [MergeState.mk.injEq]
    refine ⟨?_, ?_, rfl, ?_⟩
    · simp [List.append_assoc]
    · refine List.map_congr_left ?_
      intro i hi
      have hi2 : i < rowCount := List.mem_range.mp hi
      rw [getD_range_map _ _ _ _ hi2]
      simp [List.append_assoc]
    · simp only [List.length_append, borderIndices]
      rw [List.append_assoc]
      congr 1

lemma mergeLoop_start (options : LayoutOptions) (rowCount : Nat) (blocks : List TableData)
    (b0 : TableData) :
    mergeLoop options rowCount 0 (b0 :: blocks)
      { mergedHeaders := [], mergedRows := List.replicate rowCount [],
        separatorColumns := [], borderBoundaries := [] } =
    mergeLoop options rowCount 1 blocks
      { mergedHeaders := b0.headers,
        mergedRows := (List.range rowCount).map (fun i =>
          b0.rows.getD i (List.replicate b0.headers.length "")),
        separatorColumns := [], borderBoundaries := [] } := by
  show mergeLoop options rowCount (0 + 1) blocks _ = _
  have hstep : mergeStep options rowCount
      { mergedHeaders := [], mergedRows := List.replicate rowCount [],
        separatorColumns := [], borderBoundaries := [] } 0 b0 =
      { mergedHeaders := b0.headers,
        mergedRows := (List.range rowCount).map (fun i =>
          b0.rows.getD i (List.replicate b0.headers.length "")),
        separatorColumns := [], borderBoundaries := [] } := by
    rw [mergeStep_zero, MergeState.mk.injEq]
    refine ⟨by simp, ?_, rfl, rfl⟩
    refine List.map_congr_left ?_
    intro i _
    rw [getD_replicate_self]
    simp
  rw [hstep]

lemma flatten_sep_cells_length (bs : List TableData) :
    ((bs.map (fun b => "" :: b.headers)).flatten).length =
      (bs.map (fun b => b.headers.length)).sum + bs.length := by
  induction bs with
  | nil => simp
  | cons b bs ih =>
    simp only [List.map_cons, List.flatten_cons, List.length_append, List.length_cons, ih,
      List.sum_cons]
    omega

lemma sepIndices_eq (bs : List TableData) : ∀ base : Nat,
    sepIndices base bs = (List.range bs.length).map (fun i =>
      ((base + ((bs.take i).map (fun b => b.headers.length)).sum + i : Nat) : Int)) := by
  induction bs with
  | nil => intro base; simp [sepIndices]
  | cons b bs ih =>
    intro base
    simp only [sepIndices, ih (base + 1 + b.headers.length), List.length_cons,
      List.range_succ_eq_map, List.map_cons, List.map_map]
    congr 1
    refine List.map_congr_left ?_
    intro i _
    simp only [Function.comp, List.take_succ_cons, List.map_cons, List.sum_cons]
    push_cast
    ring

lemma borderIndices_eq (bs : List TableData) : ∀ base : Nat,
    borderIndices base bs = (List.range bs.length).map (fun i =>
      ((base + ((bs.take i).map (fun b => b.headers.length)).sum : Nat) : Int) - 1) := by
  induction bs with
  | nil => intro base; simp [borderIndices]
  | cons b bs ih =>
    intro base
    simp only [borderIndices, ih (base + b.headers.length), List.length_cons,
      List.range_succ_eq_map, List.map_cons, List.map_map]
    congr 1
    refine List.map_congr_left ?_
    intro i _
    simp only [Function.comp, List.take_succ_cons, List.map_cons, List.sum_cons]
    push_cast
    ring

lemma mergeMany_column (b0 : TableData) (bs : List TableData) (options : LayoutOptions)
    (hmode : options.separatorType = SeparatorType.column) :
    mergeMany (b0 :: bs) options =
      { headers := b0.headers ++ ((bs.map (fun b => "" :: b.headers)).flatten),
        rows := (List.range (((b0 :: bs).map (fun b => b.rows.length)).foldr max 0)).map
          (fun i => b0.rows.getD i (List.replicate b0.headers.length "") ++
            ((bs.map (fun b =>
              "" :: b.rows.getD i (List.replicate b.headers.length ""))).flatten)),
        hasHeader := b0.hasHeader,
        separatorColumns := if 0 < (sepIndices b0.headers.length bs).length
          then some (sepIndices b0.headers.length bs) else Option.none,
        borderBoundaries := Option.none } := by
  have hcol := mergeLoop_column options (((b0 :: bs).map (fun b => b.rows.length)).foldr max 0)
    hmode bs 1
    { mergedHeaders := b0.headers,
      mergedRows := (List.range (((b0 :: bs).map (fun b => b.rows.length)).foldr max 0)).map
        (fun i => b0.rows.getD i (List.replicate b0.headers.length "")),
      separatorColumns := [], borderBoundaries := [] } (le_refl 1) (by simp)
  simp only [mergeMany]
  rw [mergeLoop_start, hcol, TableData.mk.injEq]
  refine ⟨rfl, ?_, rfl, rfl, rfl⟩
  refine List.map_congr_left ?_
  intro i hi
  rw [getD_range_map _ _ _ _ (List.mem_range.mp hi)]

lemma mergeMany_border (b0 : TableData) (bs : List TableData) (options : LayoutOptions)
    (hmode : options.separatorType = SeparatorType.border) :
    mergeMany (b0 :: bs) options =
      { headers := b0.headers ++ ((bs.map TableData.headers).flatten),
        rows := (List.range (((b0 :: bs).map (fun b => b.rows.length)).foldr max 0)).map
          (fun i => b0.rows.getD i (List.replicate b0.headers.length "") ++
            ((bs.map (fun b =>
              b.rows.getD i (List.replicate b.headers.length ""))).flatten)),
        hasHeader := b0.hasHeader,
        separatorColumns := Option.none,
        borderBoundaries := if 0 < (borderIndices b0.headers.length bs).length
          then some (borderIndices b0.headers.length bs) else Option.none } := by
  have hbor := mergeLoop_border options (((b0 :: bs).map (fun b => b.rows.length)).foldr max 0)
    hmode bs 1
    { mergedHeaders := b0.headers,
      mergedRows := (List.range (((b0 :: bs).map (fun b => b.rows.length)).foldr max 0)).map
        (fun i => b0.rows.getD i (List.replicate b0.headers.length "")),
      separatorColumns := [], borderBoundaries := [] } (le_refl 1) (by simp)
  simp only [mergeMany]
  rw [mergeLoop_start, hbor, TableData.mk.injEq]
  refine ⟨rfl, ?_, rfl, rfl, rfl⟩
  refine List.map_congr_left ?_
  intro i hi
  rw [getD_range_map _ _ _ _ (List.mem_range.mp hi)]

/-! ### C3: column-mode merge inserts k-1 separator columns -/

/-- C3.  Merging `k ≥ 2` blocks with `separatorType = "column"` interleaves
exactly `k-1` synthetic blank columns — one blank header cell and one blank
cell per merged row before each block after the first — records exactly the
indices of those inserted columns in `separatorColumns` (the `i`-th recorded
index is the cumulative header length of the first `i+1` blocks plus `i`),
and the merged header length is the sum of all block header lengths plus
`k-1`. -/
theorem mergeBlocks_column_spec (blocks : List TableData) (options : LayoutOptions)
    (hk : 2 ≤ blocks.length) (hmode : options.separatorType = SeparatorType.column) :
    (mergeBlocks blocks options).headers =
      (blocks.headD default).headers ++
        ((blocks.tail.map (fun b => "" :: b.headers)).flatten) ∧
    (mergeBlocks blocks options).headers.length =
      (blocks.map (fun b => b.headers.length)).sum + (blocks.length - 1) ∧
    (mergeBlocks blocks options).rows =
      (List.range ((blocks.map (fun b => b.rows.length)).foldr max 0)).map (fun i =>
        (blocks.headD default).rows.getD i
            (List.replicate (blocks.headD default).headers.length "") ++
          ((blocks.tail.map (fun b =>
            "" :: b.rows.getD i (List.replicate b.headers.length ""))).flatten)) ∧
    (mergeBlocks blocks options).separatorColumns =
      some ((List.range (blocks.length - 1)).map (fun i =>
        ((((blocks.take (i + 1)).map (fun b => b.headers.length)).sum + i : Nat) : Int))) := by
  rcases blocks with _ | ⟨b0, _ | ⟨b1, rest⟩⟩
  · simp at hk
  · simp at hk
  · have hmb : mergeBlocks (b0 :: b1 :: rest) options = mergeMany (b0 :: b1 :: rest) options :=
      rfl
    rw [hmb, mergeMany_column b0 (b1 :: rest) options hmode]
    refine ⟨rfl, ?_, rfl, ?_⟩
    · show (b0.headers ++ (((b1 :: rest).map (fun b => "" :: b.headers)).flatten)).length = _
      rw [List.length_append, flatten_sep_cells_length]
      simp only [List.map_cons, List.sum_cons, List.length_cons]
      omega
    · show (if 0 < (sepIndices b0.headers.length (b1 :: rest)).length
          then some (sepIndices b0.headers.length (b1 :: rest)) else Option.none) = _
      rw [if_pos (by simp [sepIndices]), sepIndices_eq,
        show ((b0 :: b1 :: rest : List TableData).length - 1) = (b1 :: rest).length from rfl]
      congr 1

/-- Witness for C3 on two concrete blocks of widths 1 and 2. -/
theorem mergeBlocks_column_spec_witness :
    (mergeBlocks [{ headers := ["a"], rows := [["1"]], hasHeader := true },
        { headers := ["b", "c"], rows := [["2", "3"], ["4", "5"]], hasHeader := true }]
      { splitColumns := 2, separatorType := SeparatorType.column }).headers.length = 4 ∧
    (mergeBlocks [{ headers := ["a"], rows := [["1"]], hasHeader := true },
        { headers := ["b", "c"], rows := [["2", "3"], ["4", "5"]], hasHeader := true }]
      { splitColumns := 2, separatorType := SeparatorType.column }).separatorColumns =
      some [(1 : Int)] := by
  have h := mergeBlocks_column_spec
    [{ headers := ["a"], rows := [["1"]], hasHeader := true },
      { headers := ["b", "c"], rows := [["2", "3"], ["4", "5"]], hasHeader := true }]
    { splitColumns := 2, separatorType := SeparatorType.column } (by decide) rfl
  exact ⟨h.2.1.trans (by decide), h.2.2.2.trans (by decide)⟩

/-! ### C4: border-mode merge adds no columns, records k-1 boundaries -/

/-- C4.  Merging `k ≥ 2` blocks with `separatorType = "border"` inserts no
additional columns — the merged headers are exactly the blocks' headers
concatenated, so the merged header length is the sum of the block header
lengths — and `borderBoundaries` has exactly `k-1` entries, the entry at
each block boundary being the cumulative header length of all preceding
blocks minus one. -/
theorem mergeBlocks_border_spec (blocks : List TableData) (options : LayoutOptions)
    (hk : 2 ≤ blocks.length) (hmode : options.separatorType = SeparatorType.border) :
    (mergeBlocks blocks options).headers = (blocks.map TableData.headers).flatten ∧
    (mergeBlocks blocks options).headers.length =
      (blocks.map (fun b => b.headers.length)).sum ∧
    (mergeBlocks blocks options).borderBoundaries =
      some ((List.range (blocks.length - 1)).map (fun i =>
        ((((blocks.take (i + 1)).map (fun b => b.headers.length)).sum : Nat) : Int) - 1)) ∧
    (mergeBlocks blocks options).separatorColumns = Option.none := by
  rcases blocks with _ | ⟨b0, _ | ⟨b1, rest⟩⟩
  · simp at hk
  · simp at hk
  · have hmb : mergeBlocks (b0 :: b1 :: rest) options = mergeMany (b0 :: b1 :: rest) options :=
      rfl
    rw [hmb, mergeMany_border b0 (b1 :: rest) options hmode]
    refine ⟨?_, ?_, ?_, rfl⟩
    · show b0.headers ++ (((b1 :: rest).map TableData.headers).flatten) = _
      simp [List.flatten_cons]
    · show (b0.headers ++ (((b1 :: rest).map TableData.headers).flatten)).length = _
      simp [List.length_flatten, List.map_map, Function.comp_def, List.sum_cons]
    · show (if 0 < (borderIndices b0.headers.length (b1 :: rest)).length
          then some (borderIndices b0.headers.length (b1 :: rest)) else Option.none) = _
      rw [if_pos (by simp [borderIndices]), borderIndices_eq,
        show ((b0 :: b1 :: rest : List TableData).length - 1) = (b1 :: rest).length from rfl]
      congr 1

/-- Witness for C4 on two concrete blocks of widths 1 and 2. -/
theorem mergeBlocks_border_spec_witness :
    (mergeBlocks [{ headers := ["a"], rows := [["1"]], hasHeader := true },
        { headers := ["b", "c"], rows := [["2", "3"], ["4", "5"]], hasHeader := true }]
      { splitColumns := 2, separatorType := SeparatorType.border }).headers.length = 3 ∧
    (mergeBlocks [{ headers := ["a"], rows := [["1"]], hasHeader := true },
        { headers := ["b", "c"], rows := [["2", "3"], ["4", "5"]], hasHeader := true }]
      { splitColumns := 2, separatorType := SeparatorType.border }).borderBoundaries =
      some [(0 : Int)] := by
  have h := mergeBlocks_border_spec
    [{ headers := ["a"], rows := [["1"]], hasHeader := true },
      { headers := ["b", "c"], rows := [["2", "3"], ["4", "5"]], hasHeader := true }]
    { splitColumns := 2, separatorType := SeparatorType.border } (by decide) rfl
  exact ⟨h.2.1.trans (by decide), h.2.2.1.trans (by decide)⟩

/-! ### C10: the earlier transformer agrees for none/column separators -/

lemma legacyMergeStep_eq (options : LayoutOptions) (rowCount : Nat)
    (hmode : options.separatorType ≠ SeparatorType.border)
    (st : MergeState) (j : Nat) (b : TableData) :
    legacyMergeStep options rowCount
        { mergedHeaders := st.mergedHeaders, mergedRows := st.mergedRows,
          separatorColumns := st.separatorColumns } j b =
      { mergedHeaders := (mergeStep options rowCount st j b).mergedHeaders,
        mergedRows := (mergeStep options rowCount st j b).mergedRows,
        separatorColumns := (mergeStep options rowCount st j b).separatorColumns } ∧
    (mergeStep options rowCount st j b).borderBoundaries = st.borderBoundaries := by
  have hb : ¬(0 < j ∧ options.separatorType = SeparatorType.border) := by
    rintro ⟨_, h⟩
    exact hmode h
  constructor
  · simp only [legacyMergeStep, mergeStep]
    rw [if_neg hb]
    by_cases hc : 0 < j ∧ options.separatorType = SeparatorType.column
    · rw [if_pos hc, if_pos hc]
    · rw [if_neg hc, if_neg hc]
  · simp only [mergeStep]
    rw [if_neg hb]
    by_cases hc : 0 < j ∧ options.separatorType = SeparatorType.column
    · rw [if_pos hc]
    · rw [if_neg hc]

lemma legacyMergeLoop_eq (options : LayoutOptions) (rowCount : Nat)
    (hmode : options.separatorType ≠ SeparatorType.border) :
    ∀ (bs : List TableData) (j : Nat) (st : MergeState),
      legacyMergeLoop options rowCount j bs
          { mergedHeaders := st.mergedHeaders, mergedRows := st.mergedRows,
            separatorColumns := st.separatorColumns } =
        { mergedHeaders := (mergeLoop options rowCount j bs st).mergedHeaders,
          mergedRows := (mergeLoop options rowCount j bs st).mergedRows,
          separatorColumns := (mergeLoop options rowCount j bs st).separatorColumns } ∧
      (mergeLoop options rowCount j bs st).borderBoundaries = st.borderBoundaries := by
  intro bs
  induction bs with
  | nil => intro j st; exact ⟨rfl, rfl⟩
  | cons b bs ih =>
    intro j st
    obtain ⟨h1, h2⟩ := legacyMergeStep_eq options rowCount hmode st j b
    constructor
    · show legacyMergeLoop options rowCount (j + 1) bs _ = _
      rw [h1]
      exact (ih (j + 1) (mergeStep options rowCount st j b)).1
    · show (mergeLoop options rowCount (j + 1) bs
        (mergeStep options rowCount st j b)).borderBoundaries = _
      exact ((ih (j + 1) (mergeStep options rowCount st j b)).2).trans h2

lemma legacyMergeBlocks_eq (blocks : List TableData) (options : LayoutOptions)
    (hmode : options.separatorType ≠ SeparatorType.border) :
    legacyMergeBlocks blocks options = mergeBlocks blocks options := by
  rcases blocks with _ | ⟨b0, _ | ⟨b1, rest⟩⟩
  · rfl
  · rfl
  · show legacyMergeMany (b0 :: b1 :: rest) options = mergeMany (b0 :: b1 :: rest) options
    simp only [legacyMergeMany, mergeMany]
    generalize ((b0 :: b1 :: rest : List TableData).map (fun b => b.rows.length)).foldr max 0 = rc
    have h := legacyMergeLoop_eq options rc hmode (b0 :: b1 :: rest) 0
      { mergedHeaders := [], mergedRows := List.replicate rc [],
        separatorColumns := [], borderBoundaries := [] }
    have h1 : legacyMergeLoop options rc 0 (b0 :: b1 :: rest)
        { mergedHeaders := [], mergedRows := List.replicate rc [], separatorColumns := [] } =
        { mergedHeaders := (mergeLoop options rc 0 (b0 :: b1 :: rest)
            { mergedHeaders := [], mergedRows := List.replicate rc [],
              separatorColumns := [], borderBoundaries := [] }).mergedHeaders,
          mergedRows := (mergeLoop options rc 0 (b0 :: b1 :: rest)
            { mergedHeaders := [], mergedRows := List.replicate rc [],
              separatorColumns := [], borderBoundaries := [] }).mergedRows,
          separatorColumns := (mergeLoop options rc 0 (b0 :: b1 :: rest)
            { mergedHeaders := [], mergedRows := List.replicate rc [],
              separatorColumns := [], borderBoundaries := [] }).separatorColumns } := h.1
    have h2 : (mergeLoop options rc 0 (b0 :: b1 :: rest)
        { mergedHeaders := [], mergedRows := List.replicate rc [],
          separatorColumns := [], borderBoundaries := [] }).borderBoundaries = [] := h.2
    rw [h1, h2]
    rfl

/-- C10.  For every options value whose separator type is `"none"` or
`"column"`, the earlier `mergeBlocks` of file `unnamed/part_000` (which has
no border support) and the current `mergeBlocks` of `transformer.ts` return
equal tables on every block list, and likewise the two `transformLayout`
pipelines agree on every table. -/
theorem legacy_transformer_agrees (options : LayoutOptions)
    (hmode : options.separatorType = SeparatorType.none ∨
      options.separatorType = SeparatorType.column) :
    (∀ blocks : List TableData, legacyMergeBlocks blocks options = mergeBlocks blocks options) ∧
    (∀ data : TableData, legacyTransformLayout data options = transformLayout data options) := by
  have hne : options.separatorType ≠ SeparatorType.border := by
    rcases hmode with h | h <;> rw [h] <;> decide
  refine ⟨fun blocks => legacyMergeBlocks_eq blocks options hne, fun data => ?_⟩
  unfold legacyTransformLayout transformLayout
  exact legacyMergeBlocks_eq _ options hne

/-- Witness for C10: the two merge implementations and the two pipelines on
concrete inputs with column separators. -/
theorem legacy_transformer_agrees_witness :
    legacyMergeBlocks [{ headers := ["a"], rows := [["1"]], hasHeader := true },
        { headers := ["b", "c"], rows := [["2", "3"]], hasHeader := true }]
      { splitColumns := 2, separatorType := SeparatorType.column } =
      mergeBlocks [{ headers := ["a"], rows := [["1"]], hasHeader := true },
        { headers := ["b", "c"], rows := [["2", "3"]], hasHeader := true }]
      { splitColumns := 2, separatorType := SeparatorType.column } ∧
    legacyTransformLayout
        { headers := ["a", "b"], rows := [["1", "2"], ["3", "4"]], hasHeader := true }
        { splitColumns := 2, separatorType := SeparatorType.column } =
      transformLayout
        { headers := ["a", "b"], rows := [["1", "2"], ["3", "4"]], hasHeader := true }
        { splitColumns := 2, separatorType := SeparatorType.column } :=
  ⟨(legacy_transformer_agrees
      { splitColumns := 2, separatorType := SeparatorType.column } (Or.inr rfl)).1 _,
    (legacy_transformer_agrees
      { splitColumns := 2, separatorType := SeparatorType.column } (Or.inr rfl)).2 _⟩
